import Mathlib

/-!
Verification development for the Stardew Valley villager scraper
(`scraper.py`).  The HTML-processing functions of the scraper are embedded
shallowly: a parsed document is modelled by the fields the code actually
queries (info-panel rows, cells with their text fragments and links,
content-area headings and tables), Python dictionaries by association
lists with overwrite-on-insert, and the two birthday regular expressions
by explicit character-list scanners.
-/

namespace SDV

/-! ## String primitives (Python semantics) -/

/-- Characters of the regex class `\s` / `str.strip` for ASCII input. -/
def isSpaceChar (c : Char) : Bool :=
  c == ' ' || c == '\t' || c == '\n' || c == '\r' || c == '\x0b' || c == '\x0c'

/-- `a.startswith(b)` on character lists. -/
def strStarts (s pre : String) : Bool :=
  pre.data.isPrefixOf s.data

/-- Occurrence of `pat` anywhere in `cs` (Python `pat in s`). -/
def containsAux (pat : List Char) : List Char → Bool
  | [] => pat.isPrefixOf []
  | c :: rest => pat.isPrefixOf (c :: rest) || containsAux pat rest

/-- Python `pat in s` (substring containment). -/
def strContains (s pat : String) : Bool :=
  containsAux pat.data s.data

/-- Python `s.lower()` (ASCII). -/
def strLower (s : String) : String :=
  ⟨s.data.map Char.toLower⟩

/-- Python `s.strip()` on a character list. -/
def trimChars (cs : List Char) : List Char :=
  ((cs.dropWhile isSpaceChar).reverse.dropWhile isSpaceChar).reverse

/-- Python `s.strip()`. -/
def strTrim (s : String) : String :=
  ⟨trimChars s.data⟩

/-- Numeric value of a digit run, as computed by Python `int`. -/
def digitsVal (cs : List Char) : Nat :=
  cs.foldl (fun n c => 10 * n + (c.toNat - 48)) 0

/-! ## `get_text` on table cells

A `<td>` cell is modelled by its text fragments (the text nodes
BeautifulSoup would visit, in document order) and its `<a>` descendants.
`get_text(strip=True)` joins the stripped non-empty fragments with no
separator; `get_text(" ", strip=True)` joins them with a single space. -/

structure Link where
  title : Option String
  deriving DecidableEq

structure TdCell where
  texts : List String
  links : List Link
  deriving DecidableEq

/-- The stripped fragments that survive `strip=True`. -/
def cleanFrags (ts : List String) : List String :=
  (ts.map strTrim).filter (fun s => s != "")

/-- `cell.get_text(strip=True)`. -/
def getTextStrip (ts : List String) : String :=
  String.join (cleanFrags ts)

/-- `cell.get_text(" ", strip=True)`. -/
def getTextSpace (ts : List String) : String :=
  String.intercalate " " (cleanFrags ts)

/-! ## Birthday extractor (`parse_birthday`, scraper.py:70-100) -/

structure Bday where
  season : String
  day : Nat
  deriving DecidableEq

/-- The four season words, in the order of the regex alternation. -/
def seasonWords : List String := ["Spring", "Summer", "Fall", "Winter"]

/-- Consume the literal `p` at the head of `cs`, returning the remaining
input on success. -/
def litPre : List Char → List Char → Option (List Char)
  | [], cs => some cs
  | _ :: _, [] => none
  | p :: ps, c :: cs => if p = c then litPre ps cs else none

/-- Match one word of `ws` as a literal at the head of `cs`, first
alternative winning, returning the word and the remaining input. -/
def matchFirst : List String → List Char → Option (String × List Char)
  | [], _ => none
  | w :: ws, cs =>
    match litPre w.data cs with
    | some rest => some (w, rest)
    | none => matchFirst ws cs

/-- The `(Spring|Summer|Fall|Winter)` alternation. -/
def matchSeason (cs : List Char) : Option (String × List Char) :=
  matchFirst seasonWords cs

/-- `re.match(r"(Spring|Summer|Fall|Winter)\s*(\d+)", text)`, returning
the captured season word and the value of the digit run. -/
def matchSeasonDay (cs : List Char) : Option (String × Nat) :=
  match matchSeason cs with
  | some (w, rest) =>
    let ds := (rest.dropWhile isSpaceChar).takeWhile Char.isDigit
    if ds.isEmpty then none else some (w, digitsVal ds)
  | none => none

/-- `re.match(r"(\d+)\s*(Spring|Summer|Fall|Winter)", text)`, returning
the captured season word and the value of the digit run. -/
def matchDaySeason (cs : List Char) : Option (String × Nat) :=
  let ds := cs.takeWhile Char.isDigit
  if ds.isEmpty then none
  else
    match matchSeason ((cs.dropWhile Char.isDigit).dropWhile isSpaceChar) with
    | some (w, _) => some (w, digitsVal ds)
    | none => none

/-- The pattern cascade of `parse_birthday` on the detail-cell text
(scraper.py:85-99): season-day first, then day-season. -/
def birthdayFromText (t : String) : Option Bday :=
  match matchSeasonDay t.data with
  | some (s, d) => some ⟨s, d⟩
  | none =>
    match matchDaySeason t.data with
    | some (s, d) => some ⟨s, d⟩
    | none => none

/-- One `<tr>` of the info panel: the optional `td#infoboxsection` raw
text and the optional `td#infoboxdetail` cell. -/
structure InfoRow where
  sectionTd : Option String
  detail : Option TdCell
  deriving DecidableEq

/-- A document as seen by the info-panel extractors: the rows of
`table#infoboxtable`, when that table exists. -/
structure InfoDoc where
  infobox : Option (List InfoRow)
  deriving DecidableEq

/-- The row scan of `parse_birthday` (scraper.py:78-99): rows whose
section text contains "Birthday" are tried in order; the first whose
detail text matches a pattern produces the result. -/
def birthdayFromRows : List InfoRow → Option Bday
  | [] => none
  | r :: rest =>
    match r.sectionTd with
    | some st =>
      if strContains st "Birthday" then
        match r.detail with
        | some cell =>
          match birthdayFromText (getTextStrip cell.texts) with
          | some b => some b
          | none => birthdayFromRows rest
        | none => birthdayFromRows rest
      else birthdayFromRows rest
    | none => birthdayFromRows rest

/-- `parse_birthday` (scraper.py:70-100). -/
def parse_birthday (doc : InfoDoc) : Option Bday :=
  match doc.infobox with
  | none => none
  | some rows => birthdayFromRows rows

/-! ## Lemmas about the birthday pattern scanners -/

theorem data_append : ∀ (a b : String), (a ++ b).data = a.data ++ b.data
  | ⟨_⟩, ⟨_⟩ => rfl

theorem seasonWords_cases {s : String} (hs : s ∈ seasonWords) :
    s = "Spring" ∨ s = "Summer" ∨ s = "Fall" ∨ s = "Winter" := by
  simpa [seasonWords] using hs

theorem matchSeason_append {s : String} (hs : s ∈ seasonWords) (rest : List Char) :
    matchSeason (s.data ++ rest) = some (s, rest) := by
  rcases seasonWords_cases hs with h | h | h | h <;> subst h <;> rfl

theorem matchSeason_self {s : String} (hs : s ∈ seasonWords) :
    matchSeason s.data = some (s, []) := by
  have h := matchSeason_append hs []
  rwa [List.append_nil] at h

theorem isDigit_bounds {c : Char} (h : c.isDigit = true) : '0' ≤ c ∧ c ≤ '9' := by
  simpa [Char.isDigit] using h

theorem litPre_cons_ne {p c : Char} (h : ¬ p = c) (ps cs : List Char) :
    litPre (p :: ps) (c :: cs) = none := by
  simp [litPre, h]

theorem matchSeason_digit_head {c : Char} (h : c.isDigit = true) (cs : List Char) :
    matchSeason (c :: cs) = none := by
  have h0 := isDigit_bounds h
  have hS : ¬ ('S' = c) := by rintro rfl; exact absurd h0.2 (by decide)
  have hF : ¬ ('F' = c) := by rintro rfl; exact absurd h0.2 (by decide)
  have hW : ¬ ('W' = c) := by rintro rfl; exact absurd h0.2 (by decide)
  have e1 : litPre "Spring".data (c :: cs) = none := litPre_cons_ne hS _ _
  have e2 : litPre "Summer".data (c :: cs) = none := litPre_cons_ne hS _ _
  have e3 : litPre "Fall".data (c :: cs) = none := litPre_cons_ne hF _ _
  have e4 : litPre "Winter".data (c :: cs) = none := litPre_cons_ne hW _ _
  simp [matchSeason, seasonWords, matchFirst, e1, e2, e3, e4]

theorem digit_not_space {c : Char} (h : c.isDigit = true) : isSpaceChar c = false := by
  rcases Bool.eq_false_or_eq_true (isSpaceChar c) with ht | hf
  · exfalso
    simp only [isSpaceChar, Bool.or_eq_true, beq_iff_eq] at ht
    rcases ht with ((((rfl | rfl) | rfl) | rfl) | rfl) | rfl <;>
      exact absurd h (by decide)
  · exact hf

theorem all_digits_cons {c : Char} {tl : List Char}
    (h : (c :: tl).all Char.isDigit = true) :
    c.isDigit = true ∧ tl.all Char.isDigit = true := by
  simpa [List.all_cons] using h

theorem dropWhile_space_digits {d : List Char} (hd : d.all Char.isDigit = true) :
    d.dropWhile isSpaceChar = d := by
  cases d with
  | nil => rfl
  | cons c tl =>
    simp [List.dropWhile_cons, digit_not_space (all_digits_cons hd).1]

theorem takeWhile_digits_self {d : List Char} (hd : d.all Char.isDigit = true) :
    d.takeWhile Char.isDigit = d := by
  induction d with
  | nil => rfl
  | cons c tl ih =>
    have h := all_digits_cons hd
    simp [List.takeWhile_cons, h.1, ih h.2]

theorem takeWhile_digits_append {d rest : List Char} (hd : d.all Char.isDigit = true)
    (hr : ∀ c, rest.head? = some c → c.isDigit = false) :
    (d ++ rest).takeWhile Char.isDigit = d ∧
      (d ++ rest).dropWhile Char.isDigit = rest := by
  induction d with
  | nil =>
    cases rest with
    | nil => exact ⟨rfl, rfl⟩
    | cons c tl =>
      have hc := hr c rfl
      simp [List.takeWhile_cons, List.dropWhile_cons, hc]
  | cons c tl ih =>
    have h := all_digits_cons hd
    have htl := ih h.2
    simp [List.cons_append, List.takeWhile_cons, List.dropWhile_cons, h.1,
      htl.1, htl.2]

theorem season_data_drop_space {s : String} (hs : s ∈ seasonWords) :
    s.data.dropWhile isSpaceChar = s.data := by
  rcases seasonWords_cases hs with h | h | h | h <;> subst h <;> rfl

theorem season_head_not_digit {s : String} (hs : s ∈ seasonWords) :
    ∀ c, s.data.head? = some c → c.isDigit = false := by
  rcases seasonWords_cases hs with h | h | h | h <;> subst h <;>
    (intro c hc; cases hc; decide)

theorem data_ne_nil {d : String} (hd : d ≠ "") : d.data ≠ [] := by
  intro h
  apply hd
  cases d with
  | mk l => exact congrArg String.mk h

/-- C2 core computation: season word then optional space then digits. -/
theorem matchSeasonDay_eval {s d : String} (hs : s ∈ seasonWords) (hd : d ≠ "")
    (hdig : d.data.all Char.isDigit = true) (mid : List Char)
    (hmid : mid.dropWhile isSpaceChar = []) :
    matchSeasonDay (s.data ++ (mid ++ d.data)) = some (s, digitsVal d.data) := by
  have hms := matchSeason_append hs (mid ++ d.data)
  have hdrop : (mid ++ d.data).dropWhile isSpaceChar = d.data := by
    rw [List.dropWhile_append, hmid]
    simp [dropWhile_space_digits hdig]
  simp only [matchSeasonDay, hms, hdrop, takeWhile_digits_self hdig]
  simp [List.isEmpty_iff, data_ne_nil hd]

/-- C2 core computation: digits then optional space then season word. -/
theorem matchDaySeason_eval {s d : String} (hs : s ∈ seasonWords) (hd : d ≠ "")
    (hdig : d.data.all Char.isDigit = true) (mid : List Char)
    (hmid : mid.dropWhile isSpaceChar = []) (hmidnd : ∀ c, mid.head? = some c → c.isDigit = false) :
    matchDaySeason (d.data ++ (mid ++ s.data)) = some (s, digitsVal d.data) := by
  have hr : ∀ c, (mid ++ s.data).head? = some c → c.isDigit = false := by
    intro c hc
    cases mid with
    | nil => exact season_head_not_digit hs c hc
    | cons m tl => exact hmidnd c (by simpa using hc)
  have htk := takeWhile_digits_append hdig hr
  have hdrop : (mid ++ s.data).dropWhile isSpaceChar = s.data := by
    rw [List.dropWhile_append, hmid]
    simp [season_data_drop_space hs]
  simp only [matchDaySeason, htk.1, htk.2, hdrop, matchSeason_self hs]
  simp [List.isEmpty_iff, data_ne_nil hd]

theorem matchSeasonDay_digit_head {d : String} (hd : d ≠ "")
    (hdig : d.data.all Char.isDigit = true) (rest : List Char) :
    matchSeasonDay (d.data ++ rest) = none := by
  cases h : d.data with
  | nil => exact absurd h (data_ne_nil hd)
  | cons c tl =>
    have hc : c.isDigit = true := (all_digits_cons (h ▸ hdig)).1
    simp [matchSeasonDay, matchSeason_digit_head hc]

/-- C2: for every season word S in {Spring, Summer, Fall, Winter} and every
nonempty digit string D, the pattern cascade of the birthday extractor
(scraper.py:85-99) yields the same present result `{season := S, day :=
int(D)}` on all four text variants "S D", "SD", "D S" and "DS". -/
theorem parse_birthday_text_variants (s d : String) (hs : s ∈ seasonWords)
    (hd : d ≠ "") (hdig : d.data.all Char.isDigit = true) :
    birthdayFromText (s ++ " " ++ d) = some ⟨s, digitsVal d.data⟩ ∧
    birthdayFromText (s ++ d) = some ⟨s, digitsVal d.data⟩ ∧
    birthdayFromText (d ++ " " ++ s) = some ⟨s, digitsVal d.data⟩ ∧
    birthdayFromText (d ++ s) = some ⟨s, digitsVal d.data⟩ := by
  have hsp : " ".data = [' '] := rfl
  have e1 : (s ++ " " ++ d).data = s.data ++ ([' '] ++ d.data) := by
    simp [data_append, hsp, List.append_assoc]
  have e2 : (s ++ d).data = s.data ++ ([] ++ d.data) := by
    simp [data_append]
  have e3 : (d ++ " " ++ s).data = d.data ++ ([' '] ++ s.data) := by
    simp [data_append, hsp, List.append_assoc]
  have e4 : (d ++ s).data = d.data ++ ([] ++ s.data) := by
    simp [data_append]
  refine ⟨?_, ?_, ?_, ?_⟩
  · simp only [birthdayFromText, e1,
      matchSeasonDay_eval hs hd hdig [' '] (by decide)]
  · simp only [birthdayFromText, e2,
      matchSeasonDay_eval hs hd hdig [] (by decide)]
  · simp only [birthdayFromText, e3,
      matchSeasonDay_digit_head hd hdig ([' '] ++ s.data),
      matchDaySeason_eval hs hd hdig [' '] (by decide)
        (by intro c hc; cases hc; decide)]
  · simp only [birthdayFromText, e4,
      matchSeasonDay_digit_head hd hdig ([] ++ s.data),
      matchDaySeason_eval hs hd hdig [] (by decide) (by intro c hc; cases hc)]

/-- Witness for C2 at S = "Summer", D = "13". -/
theorem parse_birthday_text_variants_witness :
    ("Summer" ∈ seasonWords ∧ "13" ≠ "" ∧ "13".data.all Char.isDigit = true) ∧
    (birthdayFromText ("Summer" ++ " " ++ "13") = some ⟨"Summer", digitsVal "13".data⟩ ∧
     birthdayFromText ("Summer" ++ "13") = some ⟨"Summer", digitsVal "13".data⟩ ∧
     birthdayFromText ("13" ++ " " ++ "Summer") = some ⟨"Summer", digitsVal "13".data⟩ ∧
     birthdayFromText ("13" ++ "Summer") = some ⟨"Summer", digitsVal "13".data⟩) :=
  ⟨⟨by decide, by decide, by decide⟩,
    parse_birthday_text_variants "Summer" "13" (by decide) (by decide) (by decide)⟩

/-! ## C7: shape of a present birthday -/

theorem matchFirst_mem :
    ∀ {ws : List String} {cs : List Char} {w : String} {rest : List Char},
      matchFirst ws cs = some (w, rest) → w ∈ ws := by
  intro ws
  induction ws with
  | nil => intro cs w rest h; simp [matchFirst] at h
  | cons a as ih =>
    intro cs w rest h
    simp only [matchFirst] at h
    cases hl : litPre a.data cs with
    | some r =>
      rw [hl] at h
      simp only [Option.some.injEq, Prod.mk.injEq] at h
      exact h.1 ▸ List.mem_cons_self a as
    | none =>
      rw [hl] at h
      exact List.mem_cons_of_mem _ (ih h)

theorem matchSeasonDay_season {cs : List Char} {w : String} {n : Nat}
    (h : matchSeasonDay cs = some (w, n)) : w ∈ seasonWords := by
  unfold matchSeasonDay at h
  cases hm : matchSeason cs with
  | none => rw [hm] at h; simp at h
  | some p =>
    obtain ⟨w', rest⟩ := p
    rw [hm] at h
    simp only at h
    by_cases hds : ((rest.dropWhile isSpaceChar).takeWhile Char.isDigit).isEmpty
    · rw [if_pos hds] at h; simp at h
    · rw [if_neg hds] at h
      simp only [Option.some.injEq, Prod.mk.injEq] at h
      exact h.1 ▸ matchFirst_mem hm

theorem matchDaySeason_season {cs : List Char} {w : String} {n : Nat}
    (h : matchDaySeason cs = some (w, n)) : w ∈ seasonWords := by
  unfold matchDaySeason at h
  by_cases hds : (cs.takeWhile Char.isDigit).isEmpty
  · rw [if_pos hds] at h; simp at h
  · rw [if_neg hds] at h
    cases hm : matchSeason ((cs.dropWhile Char.isDigit).dropWhile isSpaceChar) with
    | none => rw [hm] at h; simp at h
    | some p =>
      obtain ⟨w', rest⟩ := p
      rw [hm] at h
      simp only [Option.some.injEq, Prod.mk.injEq] at h
      exact h.1 ▸ matchFirst_mem hm

theorem birthdayFromText_season {t : String} {b : Bday}
    (h : birthdayFromText t = some b) : b.season ∈ seasonWords := by
  unfold birthdayFromText at h
  cases h1 : matchSeasonDay t.data with
  | some p =>
    obtain ⟨w, n⟩ := p
    rw [h1] at h
    simp only [Option.some.injEq] at h
    cases h
    exact matchSeasonDay_season h1
  | none =>
    rw [h1] at h
    cases h2 : matchDaySeason t.data with
    | some p =>
      obtain ⟨w, n⟩ := p
      rw [h2] at h
      simp only [Option.some.injEq] at h
      cases h
      exact matchDaySeason_season h2
    | none => rw [h2] at h; simp at h

theorem birthdayFromRows_season :
    ∀ {rows : List InfoRow} {b : Bday},
      birthdayFromRows rows = some b → b.season ∈ seasonWords := by
  intro rows
  induction rows with
  | nil => intro b h; simp [birthdayFromRows] at h
  | cons r rest ih =>
    intro b h
    simp only [birthdayFromRows] at h
    split at h
    · split at h
      · split at h
        · split at h
          · rename_i ht
            simp only [Option.some.injEq] at h
            cases h
            exact birthdayFromText_season ht
          · exact ih h
        · exact ih h
      · exact ih h
    · exact ih h

/-- C7 (amended): whenever `parse_birthday` returns a present birthday,
its season is one of the four season words; its day is a natural number
but need not be positive (see the day-zero counterexample). -/
theorem parse_birthday_season {doc : InfoDoc} {b : Bday}
    (h : parse_birthday doc = some b) : b.season ∈ seasonWords ∧ 0 ≤ b.day := by
  refine ⟨?_, Nat.zero_le _⟩
  unfold parse_birthday at h
  cases hi : doc.infobox with
  | none => rw [hi] at h; simp at h
  | some rows => rw [hi] at h; exact birthdayFromRows_season h

/-- A document whose birthday detail text is "Spring 0". -/
def bdayDocZero : InfoDoc :=
  ⟨some [{ sectionTd := some "Birthday", detail := some ⟨["Spring 0"], []⟩ }]⟩

/-- C7 counterexample: on birthday text "Spring 0" the extractor returns a
present birthday whose day is 0, which is not a positive integer. -/
theorem parse_birthday_day_zero :
    parse_birthday bdayDocZero = some ⟨"Spring", 0⟩ ∧
      ¬ 0 < (Bday.mk "Spring" 0).day :=
  ⟨by decide, by decide⟩

/-- A document whose birthday detail text is "Summer 13". -/
def bdayDocSummer : InfoDoc :=
  ⟨some [{ sectionTd := some "Birthday", detail := some ⟨["Summer 13"], []⟩ }]⟩

/-- Witness for the amended C7 on the "Summer 13" document. -/
theorem parse_birthday_season_witness :
    parse_birthday bdayDocSummer = some ⟨"Summer", 13⟩ ∧
      ("Summer" : String) ∈ seasonWords ∧ 0 ≤ (13 : Nat) :=
  ⟨by decide,
    (@parse_birthday_season bdayDocSummer ⟨"Summer", 13⟩ (by decide)).1,
    (@parse_birthday_season bdayDocSummer ⟨"Summer", 13⟩ (by decide)).2⟩

/-! ## Image extractor (`parse_image_url`, scraper.py:103-119) -/

def BASE_URL : String := "https://stardewvalleywiki.com"

structure Img where
  src : Option String
  deriving DecidableEq

/-- A document as seen by the image extractor: the `<img>` descendants of
`table#infoboxtable` in document order, when that table exists. -/
structure ImgDoc where
  infobox : Option (List Img)
  deriving DecidableEq

/-- The URL normalization of `parse_image_url` (scraper.py:113-118). -/
def normalizeSrc (s : String) : String :=
  if strStarts s "//" then "https:" ++ s
  else if strStarts s "/" then BASE_URL ++ s
  else s

/-- `parse_image_url` (scraper.py:103-119): only the first image of the
info panel is inspected; an absent or empty `src` yields `none`. -/
def parse_image_url (doc : ImgDoc) : Option String :=
  match doc.infobox with
  | none => none
  | some imgs =>
    match imgs.head? with
    | none => none
    | some img =>
      match img.src with
      | some s => if s = "" then none else some (normalizeSrc s)
      | none => none

/-- C6: the found source string is normalized: protocol-relative sources
get "https:" prepended, root-relative ones get the site origin prepended,
and an already-absolute http(s) reference is returned unchanged. -/
theorem parse_image_url_normalizes (imgs : List Img) (s : String) (hne : s ≠ "") :
    parse_image_url ⟨some ({ src := some s } :: imgs)⟩ = some (normalizeSrc s) ∧
    (strStarts s "//" = true → normalizeSrc s = "https:" ++ s) ∧
    (strStarts s "//" = false → strStarts s "/" = true →
      normalizeSrc s = BASE_URL ++ s) ∧
    ((strStarts s "http://" = true ∨ strStarts s "https://" = true) →
      normalizeSrc s = s) := by
  refine ⟨by simp [parse_image_url, hne], ?_, ?_, ?_⟩
  · intro h; simp [normalizeSrc, h]
  · intro h1 h2; simp [normalizeSrc, h1, h2]
  · intro h
    have habs : strStarts s "//" = false ∧ strStarts s "/" = false := by
      rcases h with h | h <;>
        · rw [strStarts, List.isPrefixOf_iff_prefix] at h
          obtain ⟨t, ht⟩ := h
          exact ⟨by simp only [strStarts]; rw [← ht]; rfl,
            by simp only [strStarts]; rw [← ht]; rfl⟩
    simp [normalizeSrc, habs.1, habs.2]

/-- Witness for C6 on a protocol-relative source. -/
theorem parse_image_url_normalizes_witness :
    parse_image_url ⟨some [{ src := some "//a/b.png" }]⟩ = some "https://a/b.png" := by
  have h := parse_image_url_normalizes [] "//a/b.png" (by decide)
  have h2 := h.2.1 (by decide)
  rw [h.1, h2]
  decide

/-- C10: only the first image is inspected; a missing or empty `src`
there yields `none` regardless of any later image. -/
theorem parse_image_url_first_only (img : Img) (imgs : List Img)
    (h : img.src = none ∨ img.src = some "") :
    parse_image_url ⟨some (img :: imgs)⟩ = none := by
  rcases h with h | h <;> simp [parse_image_url, h]

/-- Witness for C10: the first image has no `src`, a later one does. -/
theorem parse_image_url_first_only_witness :
    (Img.mk none).src = none ∧
      parse_image_url ⟨some [⟨none⟩, ⟨some "//later.png"⟩]⟩ = none :=
  ⟨rfl, parse_image_url_first_only ⟨none⟩ [⟨some "//later.png"⟩] (Or.inl rfl)⟩

/-! ## Schedule extractor (`parse_schedule` / `parse_season_schedules`,
scraper.py:195-280) -/

structure ScheduleEntry where
  time : String
  location : String
  deriving DecidableEq

structure Variant where
  name : String
  entries : List ScheduleEntry
  deriving DecidableEq

/-- A `<tr>` of a variant wikitable: whether it contains a `<th>`, and its
`<td>` cells in order. -/
structure SRow where
  hasTh : Bool
  tds : List TdCell
  deriving DecidableEq

/-- A child of a season block's content cell. -/
inductive SElem where
  | p (bold : Option String)
  | wtbl (classes : List String) (rows : List SRow)
  | otherE
  deriving DecidableEq

/-- The header cell of a season block: the raw text of its first `<a>`
descendant when one exists, and its own raw text. -/
structure SHeader where
  linkText : Option String
  text : String
  deriving DecidableEq

/-- A `<table>` sibling of the Schedule heading: its classes, first
`<th>`, and the children of its first `<td>`. -/
structure SeasonTbl where
  classes : List String
  header : Option SHeader
  contentTd : Option (List SElem)
  deriving DecidableEq

/-- The entry rows of one variant table (scraper.py:262-275): header rows
are skipped, rows with fewer than two cells are skipped, the first cell's
stripped text is the time and the second cell's space-joined text is the
location. -/
def entriesOfRows (rows : List SRow) : List ScheduleEntry :=
  rows.filterMap fun r =>
    if r.hasTh then none
    else
      match r.tds with
      | t0 :: t1 :: _ => some ⟨getTextStrip t0.texts, getTextSpace t1.texts⟩
      | _ => none

/-- The child scan of `parse_season_schedules` (scraper.py:247-278): a
paragraph with bold text updates the current label; a wikitable yields a
variant which is appended only when its entry list is nonempty. -/
def parseVariants (label : String) : List SElem → List Variant
  | [] => []
  | .p b :: rest =>
    parseVariants (match b with | some t => strTrim t | none => label) rest
  | .wtbl cls rows :: rest =>
    if "wikitable" ∈ cls then
      let es := entriesOfRows rows
      if es.isEmpty then parseVariants label rest
      else ⟨label, es⟩ :: parseVariants label rest
    else parseVariants label rest
  | .otherE :: rest => parseVariants label rest

/-- `parse_season_schedules` (scraper.py:235-280). -/
def parse_season_schedules (tbl : SeasonTbl) : List Variant :=
  match tbl.contentTd with
  | none => []
  | some els => parseVariants "Regular" els

/-- The labelled wikitables a content cell contains, in document order,
with the label that is current when each is reached. -/
def labeledWikitables (label : String) : List SElem → List (String × List SRow)
  | [] => []
  | .p b :: rest =>
    labeledWikitables (match b with | some t => strTrim t | none => label) rest
  | .wtbl cls rows :: rest =>
    if "wikitable" ∈ cls then (label, rows) :: labeledWikitables label rest
    else labeledWikitables label rest
  | .otherE :: rest => labeledWikitables label rest

/-- The labelled wikitables of a season block. -/
def labeledWikitablesOf (tbl : SeasonTbl) : List (String × List SRow) :=
  match tbl.contentTd with
  | none => []
  | some els => labeledWikitables "Regular" els

theorem parseVariants_eq_filter (els : List SElem) :
    ∀ label, parseVariants label els =
      ((labeledWikitables label els).map fun lt =>
        Variant.mk lt.1 (entriesOfRows lt.2)).filter fun v => !v.entries.isEmpty := by
  induction els with
  | nil => intro label; rfl
  | cons e rest ih =>
    intro label
    cases e with
    | p b => simp only [parseVariants, labeledWikitables]; exact ih _
    | wtbl cls rows =>
      by_cases hw : "wikitable" ∈ cls
      · simp only [parseVariants, labeledWikitables, if_pos hw, List.map_cons,
          List.filter_cons]
        by_cases he : (entriesOfRows rows).isEmpty
        · simp [he, ih label]
        · simp [he, ih label]
      · simp only [parseVariants, labeledWikitables, if_neg hw]; exact ih _
    | otherE => simp only [parseVariants, labeledWikitables]; exact ih _

/-- C1: a season block's parsed variant list is exactly the labelled
wikitables of its content cell, each with the entries of its non-header
≥2-cell rows in row order, keeping only the variants whose entry list is
nonempty; in particular no variant with an empty entry list is ever
appended. -/
theorem parse_season_schedules_spec (tbl : SeasonTbl) :
    parse_season_schedules tbl =
      ((labeledWikitablesOf tbl).map fun lt =>
        Variant.mk lt.1 (entriesOfRows lt.2)).filter (fun v => !v.entries.isEmpty) ∧
    ∀ v ∈ parse_season_schedules tbl, v.entries ≠ [] := by
  have h : parse_season_schedules tbl =
      ((labeledWikitablesOf tbl).map fun lt =>
        Variant.mk lt.1 (entriesOfRows lt.2)).filter fun v => !v.entries.isEmpty := by
    unfold parse_season_schedules labeledWikitablesOf
    cases tbl.contentTd with
    | none => rfl
    | some els => exact parseVariants_eq_filter els "Regular"
  refine ⟨h, ?_⟩
  intro v hv
  rw [h] at hv
  have := (List.mem_filter.mp hv).2
  simpa [List.isEmpty_iff] using this

/-! ## `parse_schedule` (scraper.py:195-232) and C9 -/

/-- Python dict lookup on an association list. -/
def dlookup (k : String) : List (String × α) → Option α
  | [] => none
  | (k', v') :: rest => if k' = k then some v' else dlookup k rest

/-- Python dict assignment `d[k] = v`: overwrite in place, else append. -/
def dinsert (k : String) (v : α) : List (String × α) → List (String × α)
  | [] => [(k, v)]
  | (k', v') :: rest =>
    if k' = k then (k', v) :: rest else (k', v') :: dinsert k v rest

/-- A node of the content area as seen by the schedule extractor. -/
inductive SNode where
  | h2 (span : Option String)
  | tbl (t : SeasonTbl)
  | otherN
  deriving DecidableEq

structure SDoc where
  content : Option (List SNode)
  deriving DecidableEq

/-- Find the first h2 whose headline span contains "Schedule"; return the
nodes after it (scraper.py:204-209). -/
def findScheduleRest : List SNode → Option (List SNode)
  | [] => none
  | .h2 sp :: rest =>
    match sp with
    | some t =>
      if strContains t "Schedule" then some rest else findScheduleRest rest
    | none => findScheduleRest rest
  | _ :: rest => findScheduleRest rest

/-- The sibling walk stops at the next h2 (scraper.py:218). -/
def takeUntilH2 (ns : List SNode) : List SNode :=
  ns.takeWhile fun n => match n with | .h2 _ => false | _ => true

/-- Season name of a block: link text of the header cell if a link
exists, the header cell's own text otherwise (scraper.py:224-225). -/
def seasonNameOf (h : SHeader) : String :=
  match h.linkText with
  | some t => strTrim t
  | none => strTrim h.text

/-- One step of the walk of `parse_schedule` (scraper.py:218-230). -/
def schedStep (sch : List (String × List Variant)) (n : SNode) :
    List (String × List Variant) :=
  match n with
  | .tbl t =>
    if "mw-collapsible" ∈ t.classes then
      match t.header with
      | some h => dinsert (seasonNameOf h) (parse_season_schedules t) sch
      | none => sch
    else sch
  | _ => sch

/-- `parse_schedule` (scraper.py:195-232). -/
def parse_schedule (doc : SDoc) : List (String × List Variant) :=
  match doc.content with
  | none => []
  | some ns =>
    match findScheduleRest ns with
    | none => []
    | some rest => (takeUntilH2 rest).foldl schedStep []

/-- The (season name, variants) assignments the walk performs, in
document order. -/
def assignmentsOf (ns : List SNode) : List (String × List Variant) :=
  ns.filterMap fun n =>
    match n with
    | .tbl t =>
      if "mw-collapsible" ∈ t.classes then
        t.header.map fun h => (seasonNameOf h, parse_season_schedules t)
      else none
    | _ => none

/-- The assignments of the schedule span of a document. -/
def seasonAssignments (doc : SDoc) : List (String × List Variant) :=
  match doc.content with
  | none => []
  | some ns =>
    match findScheduleRest ns with
    | none => []
    | some rest => assignmentsOf (takeUntilH2 rest)

/-- First-priority choice between two optional values. -/
def olast (o fallback : Option α) : Option α :=
  match o with
  | some v => some v
  | none => fallback

/-- The last element of a list, if any. -/
def lastOpt : List α → Option α
  | [] => none
  | x :: xs => olast (lastOpt xs) (some x)

theorem olast_none (o : Option α) : olast o none = o := by
  cases o <;> rfl

theorem dlookup_dinsert (s k : String) (v : α) (d : List (String × α)) :
    dlookup s (dinsert k v d) = if k = s then some v else dlookup s d := by
  induction d with
  | nil => simp [dinsert, dlookup]
  | cons p rest ih =>
    obtain ⟨k', v'⟩ := p
    by_cases hk : k' = k
    · subst hk
      by_cases hs : k' = s
      · subst hs; simp [dinsert, dlookup]
      · simp [dinsert, dlookup, hs]
    · by_cases hs : k' = s
      · subst hs
        have : ¬ k = k' := fun h => hk h.symm
        simp [dinsert, dlookup, hk, this]
      · simp [dinsert, dlookup, hk, hs, ih]

theorem dlookup_foldl_dinsert (s : String) :
    ∀ (l : List (String × α)) (acc : List (String × α)),
      dlookup s (l.foldl (fun d a => dinsert a.1 a.2 d) acc) =
        olast (lastOpt ((l.filter fun a => a.1 == s).map Prod.snd))
          (dlookup s acc) := by
  intro l
  induction l with
  | nil => intro acc; rfl
  | cons a l ih =>
    intro acc
    obtain ⟨k, v⟩ := a
    by_cases hk : k = s
    · subst hk
      simp only [List.foldl_cons, List.filter_cons, beq_self_eq_true, if_pos,
        List.map_cons, lastOpt]
      rw [ih]
      rw [dlookup_dinsert]
      simp only [if_pos rfl]
      cases lastOpt ((l.filter fun a => a.1 == k).map Prod.snd) <;> rfl
    · have hbeq : (k == s) = false := beq_eq_false_iff_ne.mpr hk
      simp only [List.foldl_cons, List.filter_cons, hbeq, Bool.false_eq_true,
        if_neg, ite_false]
      rw [ih, dlookup_dinsert, if_neg hk]

theorem foldl_schedStep_eq (ns : List SNode) :
    ∀ acc, ns.foldl schedStep acc =
      (assignmentsOf ns).foldl (fun d a => dinsert a.1 a.2 d) acc := by
  induction ns with
  | nil => intro acc; rfl
  | cons n rest ih =>
    intro acc
    cases n with
    | h2 sp => simp only [List.foldl_cons, assignmentsOf, List.filterMap_cons]
               exact ih _
    | otherN => simp only [List.foldl_cons, assignmentsOf, List.filterMap_cons]
                exact ih _
    | tbl t =>
      by_cases hc : "mw-collapsible" ∈ t.classes
      · cases hh : t.header with
        | some h =>
          simp only [List.foldl_cons, assignmentsOf, List.filterMap_cons, hh,
            if_pos hc, Option.map, schedStep]
          exact ih _
        | none =>
          simp only [List.foldl_cons, assignmentsOf, List.filterMap_cons, hh,
            if_pos hc, Option.map, schedStep]
          exact ih _
      · simp only [List.foldl_cons, assignmentsOf, List.filterMap_cons,
          if_neg hc, schedStep]
        exact ih _

/-- C9: the schedule mapping binds a season name to the variants parsed
from the LAST collapsible block of the Schedule span that yields that
name; variants of earlier same-named blocks are discarded. -/
theorem parse_schedule_last_wins (doc : SDoc) (s : String) :
    dlookup s (parse_schedule doc) =
      lastOpt (((seasonAssignments doc).filter fun a => a.1 == s).map Prod.snd) := by
  obtain ⟨c⟩ := doc
  cases c with
  | none => rfl
  | some ns =>
    unfold parse_schedule seasonAssignments
    dsimp only
    cases hf : findScheduleRest ns with
    | none => rfl
    | some rest =>
      dsimp only
      rw [foldl_schedStep_eq, dlookup_foldl_dinsert]
      simp [dlookup, olast_none]

/-! ## Gift preference extractor (`parse_gift_preferences`,
scraper.py:122-192) -/

inductive Cat where
  | loved | liked | neutral | disliked | hated
  deriving DecidableEq

structure Gifts where
  loved : List String
  liked : List String
  neutral : List String
  disliked : List String
  hated : List String
  deriving DecidableEq

def Gifts.get (g : Gifts) : Cat → List String
  | .loved => g.loved
  | .liked => g.liked
  | .neutral => g.neutral
  | .disliked => g.disliked
  | .hated => g.hated

def Gifts.set (g : Gifts) : Cat → List String → Gifts
  | .loved, l => { g with loved := l }
  | .liked, l => { g with liked := l }
  | .neutral, l => { g with neutral := l }
  | .disliked, l => { g with disliked := l }
  | .hated, l => { g with hated := l }

def emptyGifts : Gifts := ⟨[], [], [], [], []⟩

/-- The navigational/meta substrings excluded in phase 2
(scraper.py:188). -/
def badSubs : List String := ["universal", "category", "gift", "villager"]

def hasBadSub (item : String) : Bool :=
  badSubs.any fun b => strContains (strLower item) b

/-- Phase 1 per-link step (scraper.py:141-146): keep a non-empty title
not starting with "File:", strip it, and append it to `loved` unless
already present. -/
def addLoved (g : Gifts) (l : Link) : Gifts :=
  match l.title with
  | some t =>
    if t ≠ "" ∧ ¬ strStarts t "File:" then
      let item := strTrim t
      if item ≠ "" ∧ item ∉ g.loved then { g with loved := g.loved ++ [item] }
      else g
    else g
  | none => g

/-- Phase 1 (scraper.py:132-146): the info-panel rows whose section text
contains "Loved" contribute their detail links to `loved`. -/
def phase1Rows (g : Gifts) (rows : List InfoRow) : Gifts :=
  rows.foldl
    (fun g r =>
      match r.sectionTd with
      | some st =>
        if strContains st "Loved" then
          match r.detail with
          | some cell => cell.links.foldl addLoved g
          | none => g
        else g
      | none => g)
    g

/-- The category of an h3 headline (scraper.py:154-173): the stripped,
lower-cased span text must equal one of the five keys exactly. -/
def catOfHeading (sp : Option String) : Option Cat :=
  match sp with
  | none => none
  | some t =>
    let ht := strLower (strTrim t)
    if ht = "love" then some .loved
    else if ht = "like" then some .liked
    else if ht = "neutral" then some .neutral
    else if ht = "dislike" then some .disliked
    else if ht = "hate" then some .hated
    else none

/-- Phase 2 per-link step (scraper.py:182-189): like phase 1 but into the
current category and additionally excluding meta substrings. -/
def addGift2 (cat : Cat) (g : Gifts) (l : Link) : Gifts :=
  match l.title with
  | some t =>
    if t ≠ "" ∧ ¬ strStarts t "File:" then
      let item := strTrim t
      if item ≠ "" ∧ item ∉ g.get cat then
        if ¬ hasBadSub item = true then g.set cat (g.get cat ++ [item]) else g
      else g
    else g
  | none => g

/-- A sibling node of the content area as seen by the gift extractor. -/
inductive GElem where
  | h2
  | h3 (span : Option String)
  | blk (links : List Link)
  deriving DecidableEq

/-- The sibling walk of phase 2 stops at the next h2 or h3
(scraper.py:180). -/
def isStopG : GElem → Bool
  | .h2 => true
  | .h3 _ => true
  | .blk _ => false

/-- Collect the links of the nodes of one category section
(scraper.py:179-190). -/
def collectCat (cat : Cat) (g : Gifts) (els : List GElem) : Gifts :=
  els.foldl
    (fun g e =>
      match e with
      | .blk links => links.foldl (addGift2 cat) g
      | _ => g)
    g

/-- Phase 2 (scraper.py:162-190): every h3 with a recognized headline
contributes the links of its following siblings up to the next
heading. -/
def phase2 (g : Gifts) : List GElem → Gifts
  | [] => g
  | .h3 sp :: rest =>
    match catOfHeading sp with
    | some cat =>
      phase2 (collectCat cat g (rest.takeWhile fun e => !isStopG e)) rest
    | none => phase2 g rest
  | .h2 :: rest => phase2 g rest
  | .blk _ :: rest => phase2 g rest

structure GiftDoc where
  infobox : Option (List InfoRow)
  content : Option (List GElem)
  deriving DecidableEq

/-- `parse_gift_preferences` (scraper.py:122-192). -/
def parse_gift_preferences (doc : GiftDoc) : Gifts :=
  let g1 :=
    match doc.infobox with
    | some rows => phase1Rows emptyGifts rows
    | none => emptyGifts
  match doc.content with
  | none => g1
  | some els => phase2 g1 els

/-! ## C4: no duplicates in any gift category -/

def GiftsNodup (g : Gifts) : Prop :=
  g.loved.Nodup ∧ g.liked.Nodup ∧ g.neutral.Nodup ∧ g.disliked.Nodup ∧
    g.hated.Nodup

theorem nodup_append_singleton {l : List String} {a : String}
    (hl : l.Nodup) (ha : a ∉ l) : (l ++ [a]).Nodup := by
  simp [List.nodup_append, hl, ha]

theorem addLoved_nodup {g : Gifts} (hg : GiftsNodup g) (l : Link) :
    GiftsNodup (addLoved g l) := by
  unfold addLoved
  cases l.title with
  | none => exact hg
  | some t =>
    dsimp only
    split
    · split
      · rename_i hmem
        exact ⟨nodup_append_singleton hg.1 hmem.2, hg.2.1, hg.2.2.1,
          hg.2.2.2.1, hg.2.2.2.2⟩
      · exact hg
    · exact hg

theorem addGift2_nodup (cat : Cat) {g : Gifts} (hg : GiftsNodup g) (l : Link) :
    GiftsNodup (addGift2 cat g l) := by
  unfold addGift2
  cases l.title with
  | none => exact hg
  | some t =>
    dsimp only
    split
    · split
      · rename_i hmem
        split
        · cases cat with
          | loved =>
            exact ⟨nodup_append_singleton hg.1 hmem.2, hg.2.1, hg.2.2.1,
              hg.2.2.2.1, hg.2.2.2.2⟩
          | liked =>
            exact ⟨hg.1, nodup_append_singleton hg.2.1 hmem.2, hg.2.2.1,
              hg.2.2.2.1, hg.2.2.2.2⟩
          | neutral =>
            exact ⟨hg.1, hg.2.1, nodup_append_singleton hg.2.2.1 hmem.2,
              hg.2.2.2.1, hg.2.2.2.2⟩
          | disliked =>
            exact ⟨hg.1, hg.2.1, hg.2.2.1,
              nodup_append_singleton hg.2.2.2.1 hmem.2, hg.2.2.2.2⟩
          | hated =>
            exact ⟨hg.1, hg.2.1, hg.2.2.1, hg.2.2.2.1,
              nodup_append_singleton hg.2.2.2.2 hmem.2⟩
        · exact hg
      · exact hg
    · exact hg

theorem foldl_addLoved_nodup (links : List Link) :
    ∀ {g : Gifts}, GiftsNodup g → GiftsNodup (links.foldl addLoved g) := by
  induction links with
  | nil => intro g hg; exact hg
  | cons l rest ih => intro g hg; exact ih (addLoved_nodup hg l)

theorem foldl_addGift2_nodup (cat : Cat) (links : List Link) :
    ∀ {g : Gifts}, GiftsNodup g → GiftsNodup (links.foldl (addGift2 cat) g) := by
  induction links with
  | nil => intro g hg; exact hg
  | cons l rest ih => intro g hg; exact ih (addGift2_nodup cat hg l)

theorem phase1Rows_nodup (rows : List InfoRow) :
    ∀ {g : Gifts}, GiftsNodup g → GiftsNodup (phase1Rows g rows) := by
  induction rows with
  | nil => intro g hg; exact hg
  | cons r rest ih =>
    intro g hg
    simp only [phase1Rows, List.foldl_cons]
    apply ih (g := _)
    cases r.sectionTd with
    | none => exact hg
    | some st =>
      dsimp only
      split
      · cases r.detail with
        | none => exact hg
        | some cell => exact foldl_addLoved_nodup cell.links hg
      · exact hg

theorem collectCat_nodup (cat : Cat) (els : List GElem) :
    ∀ {g : Gifts}, GiftsNodup g → GiftsNodup (collectCat cat g els) := by
  induction els with
  | nil => intro g hg; exact hg
  | cons e rest ih =>
    intro g hg
    simp only [collectCat, List.foldl_cons]
    apply ih (g := _)
    cases e with
    | blk links => exact foldl_addGift2_nodup cat links hg
    | h2 => exact hg
    | h3 sp => exact hg

theorem phase2_nodup (els : List GElem) :
    ∀ {g : Gifts}, GiftsNodup g → GiftsNodup (phase2 g els) := by
  induction els with
  | nil => intro g hg; exact hg
  | cons e rest ih =>
    intro g hg
    cases e with
    | h2 => exact ih hg
    | blk links => exact ih hg
    | h3 sp =>
      simp only [phase2]
      cases catOfHeading sp with
      | none => exact ih hg
      | some cat => exact ih (collectCat_nodup cat _ hg)

/-- C4: no gift category of the extractor's output contains a duplicate
item name; in particular an item collected both by phase 1 (info-panel
"Loved" row) and by phase 2 ("Love" heading) appears exactly once in
`loved`. -/
theorem parse_gift_preferences_nodup (doc : GiftDoc) :
    (parse_gift_preferences doc).loved.Nodup ∧
    (parse_gift_preferences doc).liked.Nodup ∧
    (parse_gift_preferences doc).neutral.Nodup ∧
    (parse_gift_preferences doc).disliked.Nodup ∧
    (parse_gift_preferences doc).hated.Nodup := by
  have h0 : GiftsNodup emptyGifts := by
    refine ⟨?_, ?_, ?_, ?_, ?_⟩ <;> exact List.nodup_nil
  have h1 : GiftsNodup (match doc.infobox with
      | some rows => phase1Rows emptyGifts rows
      | none => emptyGifts) := by
    cases doc.infobox with
    | none => exact h0
    | some rows => exact phase1Rows_nodup rows h0
  unfold parse_gift_preferences
  cases doc.content with
  | none => exact h1
  | some els => exact phase2_nodup els h1

/-! ## C5: file-namespace links and the gift categories

The code tests `title.startswith("File:")` on the raw title but stores
`title.strip()`; a title with leading whitespace therefore defeats the
filter.  The property holds for documents whose titles carry no
surrounding whitespace. -/

def linkTrimmed (l : Link) : Bool :=
  match l.title with
  | some t => strTrim t == t
  | none => true

def rowTrimmed (r : InfoRow) : Bool :=
  match r.detail with
  | some cell => cell.links.all linkTrimmed
  | none => true

def gelemTrimmed : GElem → Bool
  | .blk links => links.all linkTrimmed
  | _ => true

/-- Every link title of the document equals its own strip. -/
def giftDocTrimmed (doc : GiftDoc) : Bool :=
  (match doc.infobox with
   | some rows => rows.all rowTrimmed
   | none => true) &&
  (match doc.content with
   | some els => els.all gelemTrimmed
   | none => true)

/-- No item of any of the five categories begins with "File:". -/
def NoFileGifts (g : Gifts) : Prop :=
  (∀ i ∈ g.loved, strStarts i "File:" = false) ∧
  (∀ i ∈ g.liked, strStarts i "File:" = false) ∧
  (∀ i ∈ g.neutral, strStarts i "File:" = false) ∧
  (∀ i ∈ g.disliked, strStarts i "File:" = false) ∧
  (∀ i ∈ g.hated, strStarts i "File:" = false)

theorem mem_append_singleton {l : List String} {a i : String}
    (h : i ∈ l ++ [a]) : i ∈ l ∨ i = a := by
  simpa using h

theorem addLoved_noFile {g : Gifts} {l : Link} (hl : linkTrimmed l = true)
    (hg : NoFileGifts g) : NoFileGifts (addLoved g l) := by
  unfold addLoved
  cases ht : l.title with
  | none => exact hg
  | some t =>
    dsimp only
    split
    · rename_i hcond
      split
      · have htr : strTrim t = t := by
          unfold linkTrimmed at hl
          rw [ht] at hl
          exact eq_of_beq hl
        have hnf : strStarts t "File:" = false := by
          cases h' : strStarts t "File:" with
          | false => rfl
          | true => exact absurd h' hcond.2
        refine ⟨?_, hg.2.1, hg.2.2.1, hg.2.2.2.1, hg.2.2.2.2⟩
        intro i hi
        rcases mem_append_singleton hi with h | h
        · exact hg.1 i h
        · rw [h, htr]; exact hnf
      · exact hg
    · exact hg

theorem addGift2_noFile (cat : Cat) {g : Gifts} {l : Link}
    (hl : linkTrimmed l = true) (hg : NoFileGifts g) :
    NoFileGifts (addGift2 cat g l) := by
  unfold addGift2
  cases ht : l.title with
  | none => exact hg
  | some t =>
    dsimp only
    split
    · rename_i hcond
      split
      · split
        · have htr : strTrim t = t := by
            unfold linkTrimmed at hl
            rw [ht] at hl
            exact eq_of_beq hl
          have hnf : strStarts t "File:" = false := by
            cases h' : strStarts t "File:" with
            | false => rfl
            | true => exact absurd h' hcond.2
          have hnew : ∀ base : List String,
              (∀ i ∈ base, strStarts i "File:" = false) →
              ∀ i ∈ base ++ [strTrim t], strStarts i "File:" = false := by
            intro base hbase i hi
            rcases mem_append_singleton hi with h | h
            · exact hbase i h
            · rw [h, htr]; exact hnf
          cases cat with
          | loved =>
            exact ⟨hnew _ hg.1, hg.2.1, hg.2.2.1, hg.2.2.2.1, hg.2.2.2.2⟩
          | liked =>
            exact ⟨hg.1, hnew _ hg.2.1, hg.2.2.1, hg.2.2.2.1, hg.2.2.2.2⟩
          | neutral =>
            exact ⟨hg.1, hg.2.1, hnew _ hg.2.2.1, hg.2.2.2.1, hg.2.2.2.2⟩
          | disliked =>
            exact ⟨hg.1, hg.2.1, hg.2.2.1, hnew _ hg.2.2.2.1, hg.2.2.2.2⟩
          | hated =>
            exact ⟨hg.1, hg.2.1, hg.2.2.1, hg.2.2.2.1, hnew _ hg.2.2.2.2⟩
        · exact hg
      · exact hg
    · exact hg

theorem foldl_addLoved_noFile (links : List Link)
    (hl : links.all linkTrimmed = true) :
    ∀ {g : Gifts}, NoFileGifts g → NoFileGifts (links.foldl addLoved g) := by
  induction links with
  | nil => intro g hg; exact hg
  | cons l rest ih =>
    intro g hg
    simp only [List.all_cons, Bool.and_eq_true] at hl
    exact ih hl.2 (addLoved_noFile hl.1 hg)

theorem foldl_addGift2_noFile (cat : Cat) (links : List Link)
    (hl : links.all linkTrimmed = true) :
    ∀ {g : Gifts}, NoFileGifts g →
      NoFileGifts (links.foldl (addGift2 cat) g) := by
  induction links with
  | nil => intro g hg; exact hg
  | cons l rest ih =>
    intro g hg
    simp only [List.all_cons, Bool.and_eq_true] at hl
    exact ih hl.2 (addGift2_noFile cat hl.1 hg)

theorem phase1Rows_noFile (rows : List InfoRow)
    (hr : rows.all rowTrimmed = true) :
    ∀ {g : Gifts}, NoFileGifts g → NoFileGifts (phase1Rows g rows) := by
  induction rows with
  | nil => intro g hg; exact hg
  | cons r rest ih =>
    intro g hg
    simp only [List.all_cons, Bool.and_eq_true] at hr
    simp only [phase1Rows, List.foldl_cons]
    apply ih hr.2 (g := _)
    cases hs : r.sectionTd with
    | none => exact hg
    | some st =>
      dsimp only
      split
      · cases hd : r.detail with
        | none => exact hg
        | some cell =>
          have hcell : cell.links.all linkTrimmed = true := by
            have := hr.1
            unfold rowTrimmed at this
            rwa [hd] at this
          exact foldl_addLoved_noFile cell.links hcell hg
      · exact hg

theorem all_takeWhile {α : Type} (p q : α → Bool) (l : List α)
    (h : l.all q = true) : (l.takeWhile p).all q = true := by
  induction l with
  | nil => rfl
  | cons a tl ih =>
    simp only [List.all_cons, Bool.and_eq_true] at h
    rw [List.takeWhile_cons]
    by_cases hp : p a = true
    · simp [hp, List.all_cons, h.1, ih h.2]
    · simp [hp]

theorem collectCat_noFile (cat : Cat) (els : List GElem)
    (he : els.all gelemTrimmed = true) :
    ∀ {g : Gifts}, NoFileGifts g → NoFileGifts (collectCat cat g els) := by
  induction els with
  | nil => intro g hg; exact hg
  | cons e rest ih =>
    intro g hg
    simp only [List.all_cons, Bool.and_eq_true] at he
    simp only [collectCat, List.foldl_cons]
    apply ih he.2 (g := _)
    cases e with
    | blk links =>
      have hlinks : links.all linkTrimmed = true := he.1
      exact foldl_addGift2_noFile cat links hlinks hg
    | h2 => exact hg
    | h3 sp => exact hg

theorem phase2_noFile (els : List GElem) (he : els.all gelemTrimmed = true) :
    ∀ {g : Gifts}, NoFileGifts g → NoFileGifts (phase2 g els) := by
  induction els with
  | nil => intro g hg; exact hg
  | cons e rest ih =>
    intro g hg
    simp only [List.all_cons, Bool.and_eq_true] at he
    cases e with
    | h2 => exact ih he.2 hg
    | blk links => exact ih he.2 hg
    | h3 sp =>
      simp only [phase2]
      cases catOfHeading sp with
      | none => exact ih he.2 hg
      | some cat =>
        exact ih he.2
          (collectCat_noFile cat _
            (all_takeWhile _ _ rest he.2) hg)

/-- C5 (amended): provided every link title of the document equals its
own strip (no surrounding whitespace), no title beginning with "File:"
ever appears in any of the five gift categories. -/
theorem parse_gift_preferences_no_file (doc : GiftDoc)
    (h : giftDocTrimmed doc = true) :
    NoFileGifts (parse_gift_preferences doc) := by
  unfold giftDocTrimmed at h
  rw [Bool.and_eq_true] at h
  have h0 : NoFileGifts emptyGifts := by
    refine ⟨?_, ?_, ?_, ?_, ?_⟩ <;> intro i hi <;> exact absurd hi (by simp [emptyGifts])
  have h1 : NoFileGifts (match doc.infobox with
      | some rows => phase1Rows emptyGifts rows
      | none => emptyGifts) := by
    cases hib : doc.infobox with
    | none => exact h0
    | some rows =>
      have := h.1
      rw [hib] at this
      exact phase1Rows_noFile rows this h0
  unfold parse_gift_preferences
  cases hc : doc.content with
  | none => exact h1
  | some els =>
    have := h.2
    rw [hc] at this
    exact phase2_noFile els this h1

/-- A document whose "Loved" row links a title with leading whitespace
before the file prefix. -/
def giftDocFileEx : GiftDoc :=
  ⟨some [{ sectionTd := some "Loved",
           detail := some ⟨[], [⟨some " File:Pizza.png"⟩]⟩ }], none⟩

/-- C5 counterexample: the raw title " File:Pizza.png" does not start
with "File:", so it passes the filter, but its stripped form
"File:Pizza.png" does — and it is stored in `loved`. -/
theorem parse_gift_preferences_file_leak :
    (parse_gift_preferences giftDocFileEx).loved = ["File:Pizza.png"] ∧
      strStarts "File:Pizza.png" "File:" = true :=
  ⟨by decide, by decide⟩

/-- A well-formed document with trimmed titles: a "Loved" row with a file
thumbnail and an item, and Love/Hate heading sections. -/
def giftDocCleanEx : GiftDoc :=
  ⟨some [{ sectionTd := some "Loved",
           detail := some ⟨[], [⟨some "File:Pizza.png"⟩, ⟨some "Pizza"⟩]⟩ }],
   some [GElem.h3 (some "Love"),
         GElem.blk [⟨some "File:Salad.png"⟩, ⟨some "Pizza"⟩, ⟨some "Salad"⟩],
         GElem.h3 (some "Hate"),
         GElem.blk [⟨some "Coal"⟩]]⟩

/-- Witness for the amended C5 on a document with trimmed titles. -/
theorem parse_gift_preferences_no_file_witness :
    giftDocTrimmed giftDocCleanEx = true ∧
      NoFileGifts (parse_gift_preferences giftDocCleanEx) :=
  ⟨by decide, parse_gift_preferences_no_file giftDocCleanEx (by decide)⟩

/-! ## Villager record (`scrape_villager_details`, scraper.py:283-300)
and the birthday index (`build_birthday_index`, scraper.py:303-319) -/

structure Villager where
  name : String
  url : String
  image_url : Option String
  birthday : Option Bday
  marriageable : Bool
  gifts : Gifts
  schedule : List (String × List Variant)
  deriving DecidableEq

/-- The initial index: the four season keys, each with an empty map. -/
def initBirthdays : List (String × List (String × String)) :=
  [("Spring", []), ("Summer", []), ("Fall", []), ("Winter", [])]

/-- One iteration of `build_birthday_index` (scraper.py:312-317):
entities with a present birthday whose season is a key of the index get
`birthdays[season][str(day)] = name`. -/
def bdayStep (bd : List (String × List (String × String)))
    (nv : String × Villager) : List (String × List (String × String)) :=
  match nv.2.birthday with
  | some b =>
    if (dlookup b.season bd).isSome then
      dinsert b.season
        (dinsert (toString b.day) nv.1 ((dlookup b.season bd).getD [])) bd
    else bd
  | none => bd

/-- `build_birthday_index` (scraper.py:303-319). -/
def build_birthday_index (vs : List (String × Villager)) :
    List (String × List (String × String)) :=
  vs.foldl bdayStep initBirthdays

/-- Two-level lookup `birthdays[season][day]`. -/
def lookup2 (idx : List (String × List (String × String))) (s d : String) :
    Option String :=
  match dlookup s idx with
  | some inner => dlookup d inner
  | none => none

/-- Does this entity's birthday equal season `s`, day-string `d`? -/
def matchesBday (v : Villager) (s d : String) : Bool :=
  match v.birthday with
  | some b => (b.season == s) && (toString b.day == d)
  | none => false

/-- The name of the last entity in mapping order whose birthday is
(s, d), if any. -/
def lastBirthdayHolder (s d : String) : List (String × Villager) → Option String
  | [] => none
  | (n, v) :: rest =>
    olast (lastBirthdayHolder s d rest)
      (if matchesBday v s d then some n else none)

theorem olast_assoc (a b c : Option α) :
    olast (olast a b) c = olast a (olast b c) := by
  cases a <;> rfl

theorem bdayStep_isSome {s : String} {acc : List (String × List (String × String))}
    (hacc : (dlookup s acc).isSome = true) (nv : String × Villager) :
    (dlookup s (bdayStep acc nv)).isSome = true := by
  unfold bdayStep
  cases nv.2.birthday with
  | none => exact hacc
  | some b =>
    dsimp only
    split
    · rw [dlookup_dinsert]
      by_cases hseq : b.season = s
      · simp [hseq]
      · simp [hseq, hacc]
    · exact hacc

theorem bdayStep_lookup2 {s : String} {acc : List (String × List (String × String))}
    (hacc : (dlookup s acc).isSome = true) (d : String) (nv : String × Villager) :
    lookup2 (bdayStep acc nv) s d =
      olast (if matchesBday nv.2 s d then some nv.1 else none)
        (lookup2 acc s d) := by
  unfold bdayStep matchesBday
  cases nv.2.birthday with
  | none => simp [olast]
  | some b =>
    dsimp only
    split
    · rename_i hkey
      by_cases hseq : b.season = s
      · subst hseq
        obtain ⟨inner0, hin⟩ := Option.isSome_iff_exists.mp hacc
        unfold lookup2
        rw [dlookup_dinsert, if_pos rfl, hin]
        dsimp only [Option.getD]
        rw [dlookup_dinsert]
        by_cases hd : toString b.day = d
        · simp [hd, olast]
        · have hbeq : (toString b.day == d) = false := beq_eq_false_iff_ne.mpr hd
          simp [hd, hbeq, olast]
      · have hbeq : (b.season == s) = false := beq_eq_false_iff_ne.mpr hseq
        unfold lookup2
        rw [dlookup_dinsert, if_neg hseq]
        simp [hbeq, olast]
    · rename_i hkey
      by_cases hseq : b.season = s
      · subst hseq
        exact absurd hacc hkey
      · have hbeq : (b.season == s) = false := beq_eq_false_iff_ne.mpr hseq
        simp [hbeq, olast]

theorem build_loop_lookup2 (s d : String) :
    ∀ (vs : List (String × Villager)) (acc : List (String × List (String × String))),
      (dlookup s acc).isSome = true →
      lookup2 (vs.foldl bdayStep acc) s d =
        olast (lastBirthdayHolder s d vs) (lookup2 acc s d) := by
  intro vs
  induction vs with
  | nil => intro acc _; rfl
  | cons nv rest ih =>
    intro acc hacc
    obtain ⟨n, v⟩ := nv
    rw [List.foldl_cons, ih _ (bdayStep_isSome hacc (n, v)),
      bdayStep_lookup2 hacc d (n, v)]
    show _ = olast (olast (lastBirthdayHolder s d rest)
      (if matchesBday v s d then some n else none)) (lookup2 acc s d)
    rw [olast_assoc]

theorem lastBirthdayHolder_mem {s d : String} :
    ∀ {vs : List (String × Villager)} {n : String},
      lastBirthdayHolder s d vs = some n → n ∈ vs.map Prod.fst := by
  intro vs
  induction vs with
  | nil => intro n h; simp [lastBirthdayHolder] at h
  | cons nv rest ih =>
    intro n h
    obtain ⟨n', v⟩ := nv
    unfold lastBirthdayHolder at h
    cases hrest : lastBirthdayHolder s d rest with
    | some m =>
      rw [hrest] at h
      cases h
      exact List.mem_cons_of_mem _ (ih hrest)
    | none =>
      rw [hrest] at h
      dsimp only [olast] at h
      by_cases hm : matchesBday v s d = true
      · rw [if_pos hm] at h
        cases h
        simp
      · rw [if_neg hm] at h
        simp at h

theorem init_has_season {s : String} (hs : s ∈ seasonWords) :
    (dlookup s initBirthdays).isSome = true := by
  rcases seasonWords_cases hs with h | h | h | h <;> subst h <;> rfl

/-- C3: the index binds (season, day-string) exactly when some entity of
the mapping has that birthday, and then to the name of the last such
entity in mapping order (last-write-wins); every stored name is a key of
the entities mapping. -/
theorem build_birthday_index_spec (vs : List (String × Villager)) (s : String)
    (hs : s ∈ seasonWords) (d : String) :
    lookup2 (build_birthday_index vs) s d = lastBirthdayHolder s d vs ∧
    (∀ n, lookup2 (build_birthday_index vs) s d = some n →
      n ∈ vs.map Prod.fst) := by
  have heq : lookup2 (build_birthday_index vs) s d = lastBirthdayHolder s d vs := by
    unfold build_birthday_index
    rw [build_loop_lookup2 s d vs initBirthdays (init_has_season hs)]
    have hinit : lookup2 initBirthdays s d = none := by
      rcases seasonWords_cases hs with h | h | h | h <;> subst h <;> rfl
    rw [hinit, olast_none]
  refine ⟨heq, ?_⟩
  intro n hn
  rw [heq] at hn
  exact lastBirthdayHolder_mem hn

/-- A minimal villager record with the given name and birthday. -/
def villagerEx (nm : String) (b : Option Bday) : Villager :=
  ⟨nm, "", none, b, false, emptyGifts, []⟩

/-- An entities mapping in which two entities share the birthday Fall 13. -/
def vsEx : List (String × Villager) :=
  [("Abigail", villagerEx "Abigail" (some ⟨"Fall", 13⟩)),
   ("Bob", villagerEx "Bob" (some ⟨"Fall", 13⟩)),
   ("Linus", villagerEx "Linus" none)]

/-- Witness for C3: with a shared birthday the index holds exactly the
last entity in mapping order. -/
theorem build_birthday_index_spec_witness :
    ("Fall" : String) ∈ seasonWords ∧
    lookup2 (build_birthday_index vsEx) "Fall" "13" =
      lastBirthdayHolder "Fall" "13" vsEx ∧
    lookup2 (build_birthday_index vsEx) "Fall" "13" = some "Bob" :=
  ⟨by decide, (build_birthday_index_spec vsEx "Fall" (by decide) "13").1,
    by decide⟩

/-! ## Orchestrator (`scrape_all_villagers` / `main`, scraper.py:322-386)

The HTTP layer is abstracted as an oracle from URL to an optional parsed
document; a parsed document bundles the views the four extractors
query. -/

def BACHELORS : List String :=
  ["Alex", "Elliott", "Harvey", "Sam", "Sebastian", "Shane"]

def BACHELORETTES : List String :=
  ["Abigail", "Emily", "Haley", "Leah", "Maru", "Penny"]

def MARRIAGE_CANDIDATES : List String := BACHELORS ++ BACHELORETTES

def OTHER_VILLAGERS : List String :=
  ["Caroline", "Clint", "Demetrius", "Dwarf", "Evelyn", "George",
   "Gus", "Jas", "Jodi", "Kent", "Krobus", "Leo", "Lewis", "Linus",
   "Marnie", "Pam", "Pierre", "Robin", "Sandy", "Vincent", "Willy", "Wizard"]

def VILLAGERS_URL : String := BASE_URL ++ "/Villagers"

/-- `get_villager_list` (scraper.py:41-67). -/
def get_villager_list : List (String × String) :=
  (BACHELORS ++ BACHELORETTES ++ OTHER_VILLAGERS).map
    fun n => (n, BASE_URL ++ "/" ++ n)

/-- One parsed page, as the four extractors see it. -/
structure Soup where
  info : InfoDoc
  imgs : ImgDoc
  giftView : GiftDoc
  sched : SDoc
  deriving DecidableEq

/-- `scrape_villager_details` (scraper.py:283-300). -/
def scrape_villager_details (fetch : String → Option Soup)
    (name url : String) : Option Villager :=
  match fetch url with
  | none => none
  | some soup =>
    some
      { name := name
        url := url
        image_url := parse_image_url soup.imgs
        birthday := parse_birthday soup.info
        marriageable := name ∈ MARRIAGE_CANDIDATES
        gifts := parse_gift_preferences soup.giftView
        schedule := parse_schedule soup.sched }

structure Metadata where
  source : String
  total_villagers : Nat
  marriage_candidates : Nat
  deriving DecidableEq

structure Collection where
  metadata : Metadata
  villagers : List (String × Villager)
  birthdays_by_date : List (String × List (String × String))
  deriving DecidableEq

/-- `scrape_all_villagers` (scraper.py:322-357); `none` stands for the
falsy empty dict returned when the villager list is empty. -/
def scrape_all_villagers (fetch : String → Option Soup) : Option Collection :=
  let vlist := get_villager_list
  if vlist.isEmpty then none
  else
    let villagers :=
      vlist.foldl
        (fun acc v =>
          match scrape_villager_details fetch v.1 v.2 with
          | some details => dinsert v.1 details acc
          | none => acc)
        []
    some
      { metadata :=
          { source := VILLAGERS_URL
            total_villagers := villagers.length
            marriage_candidates :=
              (villagers.filter fun p => p.2.marriageable).length }
        villagers := villagers
        birthdays_by_date := build_birthday_index villagers }

/-- Outcome of `main` (scraper.py:367-385): `saved c` means
`save_to_json` is invoked on `c`; `noData` means the terminal
"No data was scraped" report. -/
inductive MainResult where
  | saved (c : Collection)
  | noData
  deriving DecidableEq

/-- `main` (scraper.py:367-385): `if data and data.get("villagers")`. -/
def main (fetch : String → Option Soup) : MainResult :=
  match scrape_all_villagers fetch with
  | none => .noData
  | some data => if data.villagers.isEmpty then .noData else .saved data

/-- C8: if the built collection's villagers mapping is empty, the
persistence step is never invoked and the terminal no-data condition is
reported instead. -/
theorem main_no_data (fetch : String → Option Soup) (c : Collection)
    (h : scrape_all_villagers fetch = some c) (hv : c.villagers = []) :
    main fetch = MainResult.noData := by
  unfold main
  rw [h]
  simp [hv]

/-- An oracle on which every fetch fails. -/
def noFetch : String → Option Soup := fun _ => none

/-- The collection built when every fetch fails. -/
def emptyRunCollection : Collection :=
  ⟨⟨VILLAGERS_URL, 0, 0⟩, [], initBirthdays⟩

/-- Witness for C8: when every fetch fails, the run builds an empty
villagers mapping and reports no data. -/
theorem main_no_data_witness :
    scrape_all_villagers noFetch = some emptyRunCollection ∧
      emptyRunCollection.villagers = [] ∧
      main noFetch = MainResult.noData :=
  ⟨rfl, rfl, main_no_data noFetch emptyRunCollection rfl rfl⟩

end SDV
